import Mathlib

/-!
Shallow embedding of `cmd/tools/benthos_config_gen/main.go`.

The tool depends on an external engine library (registries of connector
constructors, per-section default constructors, per-section sanitisation,
YAML/JSON marshalling) and on the filesystem.  Those boundaries are modelled
abstractly: a `Ty` record of opaque carrier types and a `Lib` record of the
operations the tool calls.  The tool's own code (`Config`, `NewConfig`,
`Config.Sanitised`, `createYAML`, `createJSON`, `main`'s loop body) is
translated directly from the Go source.

Panics are modelled by an error component: every operation returns the list
of file writes it performed together with `Option Err`; a `some e` means the
Go code panicked with `e` at that point and the process unwound.
The unspecified iteration order of Go's `for t := range typeMap` is modelled
by running the loop over an arbitrary list `ts` of type names; theorems that
need it assume `ts` enumerates the union of the registry key sets.
-/

/-- Opaque carrier types of the external engine library:
section configurations that the tool never inspects, the sanitised
per-section representations, and the error type. -/
structure Ty where
  Http : Type
  Proc : Type
  InRest : Type
  BufConf : Type
  PipeRest : Type
  OutRest : Type
  SanInput : Type
  SanBuffer : Type
  SanPipeline : Type
  SanOutput : Type
  Err : Type

/-- `input.Config`: the tool reads and writes its `Type` and `Processors`
fields; all other fields are opaque (`rest`). -/
structure InputConfig (τ : Ty) where
  type : String
  processors : List τ.Proc
  rest : τ.InRest

/-- `output.Config`: the tool reads and writes its `Type` and `Processors`
fields; all other fields are opaque (`rest`). -/
structure OutputConfig (τ : Ty) where
  type : String
  processors : List τ.Proc
  rest : τ.OutRest

/-- `pipeline.Config`: the tool appends to its `Processors` field; all other
fields are opaque (`rest`). -/
structure PipelineConfig (τ : Ty) where
  processors : List τ.Proc
  rest : τ.PipeRest

/-- The anonymous struct returned by `Config.Sanitised`: `http` copied
verbatim, the other four sections replaced by their sanitised forms. -/
structure SanitisedConfig (τ : Ty) where
  http : τ.Http
  input : τ.SanInput
  buffer : τ.SanBuffer
  pipeline : τ.SanPipeline
  output : τ.SanOutput

/-- `Config`, the benthos configuration struct of the tool. -/
structure Config (τ : Ty) where
  http : τ.Http
  input : InputConfig τ
  buffer : τ.BufConf
  pipeline : PipelineConfig τ
  output : OutputConfig τ

/-- The external engine library and filesystem boundary: registry key sets,
per-section default constructors, per-section sanitisation, the two
marshallers, and the file-write primitive.  `inputConstructors` and
`outputConstructors` are the key sets of `input.Constructors` and
`output.Constructors`; the tool only ever tests membership.
`jsonMarshalIndent p i` models `json.MarshalIndent(·, p, i)`.
`writeFile path content perm` models `ioutil.WriteFile`; `some e` means the
write failed with error `e` (the outcome is a function of path and content,
an abstraction of the filesystem's failure behaviour). -/
structure Lib (τ : Ty) where
  inputConstructors : List String
  outputConstructors : List String
  httpDefault : τ.Http
  inputDefault : InputConfig τ
  bufferDefault : τ.BufConf
  pipelineDefault : PipelineConfig τ
  outputDefault : OutputConfig τ
  procDefault : τ.Proc
  sanitiseInput : InputConfig τ → Except τ.Err τ.SanInput
  sanitiseBuffer : τ.BufConf → Except τ.Err τ.SanBuffer
  sanitisePipeline : PipelineConfig τ → Except τ.Err τ.SanPipeline
  sanitiseOutput : OutputConfig τ → Except τ.Err τ.SanOutput
  yamlMarshal : SanitisedConfig τ → Except τ.Err String
  jsonMarshalIndent : String → String → SanitisedConfig τ → Except τ.Err String
  writeFile : String → String → Nat → Option τ.Err

/-- `NewConfig` returns a new configuration with default values, each field
populated from the library's per-section default constructor. -/
def NewConfig {τ : Ty} (L : Lib τ) : Config τ :=
  { http := L.httpDefault
    input := L.inputDefault
    buffer := L.bufferDefault
    pipeline := L.pipelineDefault
    output := L.outputDefault }

/-- `Config.Sanitised`: sanitises the four sections in order
(input, buffer, pipeline, output), returning the first error, and on success
the anonymous struct with `http` copied verbatim. -/
def Config.Sanitised {τ : Ty} (L : Lib τ) (c : Config τ) :
    Except τ.Err (SanitisedConfig τ) :=
  match L.sanitiseInput c.input with
  | .error e => .error e
  | .ok inConf =>
    match L.sanitiseBuffer c.buffer with
    | .error e => .error e
    | .ok bufConf =>
      match L.sanitisePipeline c.pipeline with
      | .error e => .error e
      | .ok pipeConf =>
        match L.sanitiseOutput c.output with
        | .error e => .error e
        | .ok outConf =>
          .ok { http := c.http, input := inConf, buffer := bufConf,
                pipeline := pipeConf, output := outConf }

/-- One file written to disk: destination path, byte content (as a string)
and permission bits. -/
structure FileWrite where
  path : String
  content : String
  perm : Nat
  deriving DecidableEq

/-- The fixed YAML header comment emitted by `createYAML`. -/
def yamlHeader : String :=
  "# This file was auto generated by benthos_config_gen.\n"

/-- Models `filepath.Join(dir, name)` for an already-clean directory path. -/
def pathJoin (dir name : String) : String :=
  dir ++ "/" ++ name

/-- The path of the YAML file for connector type `t`. -/
def yamlPath (dir t : String) : String :=
  pathJoin dir (t ++ ".yaml")

/-- The path of the JSON file for connector type `t`. -/
def jsonPath (dir t : String) : String :=
  pathJoin dir (t ++ ".json")

/-- `createYAML`: marshal to YAML (panic on error), prepend the fixed header
line, write with mode 0644 (panic on error).  Returns the writes performed
and the panic, if any. -/
def createYAML {τ : Ty} (L : Lib τ) (path : String) (sanit : SanitisedConfig τ) :
    List FileWrite × Option τ.Err :=
  match L.yamlMarshal sanit with
  | .error e => ([], some e)
  | .ok cBytes =>
    let resBytes := yamlHeader ++ cBytes
    match L.writeFile path resBytes 0o644 with
    | some e => ([], some e)
    | none => ([⟨path, resBytes, 0o644⟩], none)

/-- `createJSON`: marshal with `json.MarshalIndent(sanit, "", "\t")`
(panic on error), no header, write with mode 0644 (panic on error). -/
def createJSON {τ : Ty} (L : Lib τ) (path : String) (sanit : SanitisedConfig τ) :
    List FileWrite × Option τ.Err :=
  match L.jsonMarshalIndent "" "\t" sanit with
  | .error e => ([], some e)
  | .ok resBytes =>
    match L.writeFile path resBytes 0o644 with
    | some e => ([], some e)
    | none => ([⟨path, resBytes, 0o644⟩], none)

/-- The loop body of `main` before sanitisation: start from `NewConfig`,
clear the input and output processor lists, append one default processor
configuration to the pipeline list, and set the input (resp. output) type to
`t` when `t` is a key of the input (resp. output) registry. -/
def buildConfig {τ : Ty} (L : Lib τ) (t : String) : Config τ :=
  let conf := NewConfig L
  let conf := { conf with input.processors := [] }
  let conf := { conf with output.processors := [] }
  let conf := { conf with
    pipeline.processors := conf.pipeline.processors ++ [L.procDefault] }
  let conf := if t ∈ L.inputConstructors then { conf with input.type := t } else conf
  let conf := if t ∈ L.outputConstructors then { conf with output.type := t } else conf
  conf

/-- Processing of one connector type name in `main`'s loop: build the
configuration, sanitise it (panic on error, before any file of this name is
written), then `createYAML` and `createJSON` in that order. -/
def genOne {τ : Ty} (L : Lib τ) (dir t : String) : List FileWrite × Option τ.Err :=
  match Config.Sanitised L (buildConfig L t) with
  | .error e => ([], some e)
  | .ok sanit =>
    let y := createYAML L (yamlPath dir t) sanit
    match y.2 with
    | some e => (y.1, some e)
    | none =>
      let j := createJSON L (jsonPath dir t) sanit
      (y.1 ++ j.1, j.2)

/-- `main`'s loop over the type-name set, in the given iteration order:
processes each name in turn, aborting at the first panic with the writes
performed so far. -/
def runLoop {τ : Ty} (L : Lib τ) (dir : String) :
    List String → List FileWrite × Option τ.Err
  | [] => ([], none)
  | t :: ts =>
    let g := genOne L dir t
    match g.2 with
    | some e => (g.1, some e)
    | none =>
      let r := runLoop L dir ts
      (g.1 ++ r.1, r.2)

/-- Applies a list of writes to a filesystem (a map from path to content),
in order; each write unconditionally replaces the content at its path. -/
def applyWrites (fs : String → Option String) :
    List FileWrite → String → Option String
  | [] => fs
  | w :: ws => applyWrites (fun p => if p = w.path then some w.content else fs p) ws

/-- The content of the last write to path `p` in a write list, if any. -/
def lastContent : List FileWrite → String → Option String
  | [], _ => none
  | w :: ws, p =>
    match lastContent ws p with
    | some c => some c
    | none => if p = w.path then some w.content else none

/-- The paths of the files that a fully successful run over the name list
`ts` writes: `<dir>/<t>.yaml` and `<dir>/<t>.json` for each `t`, in order. -/
def pathsFor (dir : String) : List String → List String
  | [] => []
  | t :: ts => yamlPath dir t :: jsonPath dir t :: pathsFor dir ts

/-- The content of the YAML file for connector type `t`, when every step up
to YAML marshalling succeeds: the fixed header followed by the marshalled
sanitised configuration. -/
def yamlDoc {τ : Ty} (L : Lib τ) (t : String) : Option String :=
  match Config.Sanitised L (buildConfig L t) with
  | .error _ => none
  | .ok s =>
    match L.yamlMarshal s with
    | .error _ => none
    | .ok cy => some (yamlHeader ++ cy)

/-- The content of the JSON file for connector type `t`, when every step up
to JSON marshalling succeeds: the marshalled sanitised configuration, with
empty prefix and tab indentation, and no header. -/
def jsonDoc {τ : Ty} (L : Lib τ) (t : String) : Option String :=
  match Config.Sanitised L (buildConfig L t) with
  | .error _ => none
  | .ok s =>
    match L.jsonMarshalIndent "" "\t" s with
    | .error _ => none
    | .ok cj => some cj

/-- A concrete instantiation of the carrier types, for evaluating the model
on explicit inputs. -/
abbrev tyU : Ty :=
  { Http := Unit, Proc := Unit, InRest := Unit, BufConf := Unit,
    PipeRest := Unit, OutRest := Unit, SanInput := Unit, SanBuffer := Unit,
    SanPipeline := Unit, SanOutput := Unit, Err := Nat }

/-- A concrete well-behaved library: one input connector `a`, one output
connector `b`, every operation succeeding. -/
def libA : Lib tyU :=
  { inputConstructors := ["a"]
    outputConstructors := ["b"]
    httpDefault := ()
    inputDefault := { type := "a", processors := [()], rest := () }
    bufferDefault := ()
    pipelineDefault := { processors := [], rest := () }
    outputDefault := { type := "b", processors := [()], rest := () }
    procDefault := ()
    sanitiseInput := fun _ => .ok ()
    sanitiseBuffer := fun _ => .ok ()
    sanitisePipeline := fun _ => .ok ()
    sanitiseOutput := fun _ => .ok ()
    yamlMarshal := fun _ => .ok "Y"
    jsonMarshalIndent := fun _ _ _ => .ok "J"
    writeFile := fun _ _ _ => none }

/-- `libA` with a failing input sanitisation. -/
def libF : Lib tyU :=
  { libA with sanitiseInput := fun _ => .error 7 }

/-- `libF` with, in addition, a failing buffer sanitisation: input
sanitisation still fails first. -/
def libF2 : Lib tyU :=
  { libF with sanitiseBuffer := fun _ => .error 9 }

lemma yamlPath_inj {dir t₁ t₂ : String} (h : yamlPath dir t₁ = yamlPath dir t₂) :
    t₁ = t₂ := by
  have hd := congrArg String.data h
  simp only [yamlPath, pathJoin, String.data_append, List.append_assoc] at hd
  exact String.ext (List.append_cancel_right
    (List.append_cancel_left (List.append_cancel_left hd)))

lemma jsonPath_inj {dir t₁ t₂ : String} (h : jsonPath dir t₁ = jsonPath dir t₂) :
    t₁ = t₂ := by
  have hd := congrArg String.data h
  simp only [jsonPath, pathJoin, String.data_append, List.append_assoc] at hd
  exact String.ext (List.append_cancel_right
    (List.append_cancel_left (List.append_cancel_left hd)))

lemma yamlPath_ne_jsonPath {dir t₁ t₂ : String} :
    yamlPath dir t₁ ≠ jsonPath dir t₂ := by
  intro h
  have hd := congrArg String.data h
  simp only [yamlPath, jsonPath, pathJoin, String.data_append, List.append_assoc] at hd
  have h1 : t₁.data ++ ".yaml".data = t₂.data ++ ".json".data :=
    List.append_cancel_left (List.append_cancel_left hd)
  have h2 : (".yaml".data : List Char) = ".json".data :=
    List.append_inj_right' h1 (by decide)
  exact absurd h2 (by decide)

lemma genOne_sanit_err {τ : Ty} (L : Lib τ) (dir t : String) {e : τ.Err}
    (h : Config.Sanitised L (buildConfig L t) = .error e) :
    genOne L dir t = ([], some e) := by
  simp [genOne, h]

lemma genOne_ok {τ : Ty} (L : Lib τ) (dir t : String)
    (h : (genOne L dir t).2 = none) :
    ∃ yd jd, yamlDoc L t = some yd ∧ jsonDoc L t = some jd ∧
      genOne L dir t =
        ([⟨yamlPath dir t, yd, 0o644⟩, ⟨jsonPath dir t, jd, 0o644⟩], none) := by
  unfold genOne at h ⊢
  cases hs : Config.Sanitised L (buildConfig L t) with
  | error e => simp [hs] at h
  | ok s =>
    cases hy : L.yamlMarshal s with
    | error e => simp [hs, createYAML, hy] at h
    | ok cy =>
      cases hwy : L.writeFile (yamlPath dir t) (yamlHeader ++ cy) 0o644 with
      | some e => simp [hs, createYAML, hy, hwy] at h
      | none =>
        cases hj : L.jsonMarshalIndent "" "\t" s with
        | error e => simp [hs, createYAML, createJSON, hy, hwy, hj] at h
        | ok cj =>
          cases hwj : L.writeFile (jsonPath dir t) cj 0o644 with
          | some e => simp [hs, createYAML, createJSON, hy, hwy, hj, hwj] at h
          | none =>
            refine ⟨yamlHeader ++ cy, cj, ?_, ?_, ?_⟩
            · simp [yamlDoc, hs, hy]
            · simp [jsonDoc, hs, hj]
            · simp [createYAML, createJSON, hy, hwy, hj, hwj]

lemma yamlDoc_some_iff {τ : Ty} (L : Lib τ) (t yd : String) :
    yamlDoc L t = some yd ↔
      ∃ s cy, Config.Sanitised L (buildConfig L t) = .ok s ∧
        L.yamlMarshal s = .ok cy ∧ yd = yamlHeader ++ cy := by
  unfold yamlDoc
  cases hs : Config.Sanitised L (buildConfig L t) with
  | error e => simp
  | ok s =>
    cases hy : L.yamlMarshal s with
    | error e => simp [hy]
    | ok cy => simp [hy, eq_comm]

lemma jsonDoc_some_iff {τ : Ty} (L : Lib τ) (t jd : String) :
    jsonDoc L t = some jd ↔
      ∃ s cj, Config.Sanitised L (buildConfig L t) = .ok s ∧
        L.jsonMarshalIndent "" "\t" s = .ok cj ∧ jd = cj := by
  unfold jsonDoc
  cases hs : Config.Sanitised L (buildConfig L t) with
  | error e => simp
  | ok s =>
    cases hj : L.jsonMarshalIndent "" "\t" s with
    | error e => simp [hj]
    | ok cj => simp [hj, eq_comm]

lemma genOne_writes_shape {τ : Ty} (L : Lib τ) (dir t : String) {fw : FileWrite}
    (hfw : fw ∈ (genOne L dir t).1) :
    (∃ yd, yamlDoc L t = some yd ∧ fw = ⟨yamlPath dir t, yd, 0o644⟩) ∨
    (∃ jd, jsonDoc L t = some jd ∧ fw = ⟨jsonPath dir t, jd, 0o644⟩) := by
  unfold genOne at hfw
  cases hs : Config.Sanitised L (buildConfig L t) with
  | error e => simp [hs] at hfw
  | ok s =>
    cases hy : L.yamlMarshal s with
    | error e => simp [hs, createYAML, hy] at hfw
    | ok cy =>
      cases hwy : L.writeFile (yamlPath dir t) (yamlHeader ++ cy) 0o644 with
      | some e => simp [hs, createYAML, hy, hwy] at hfw
      | none =>
        cases hj : L.jsonMarshalIndent "" "\t" s with
        | error e =>
          simp [hs, createYAML, createJSON, hy, hwy, hj] at hfw
          exact Or.inl ⟨yamlHeader ++ cy, by simp [yamlDoc, hs, hy], by simp [hfw]⟩
        | ok cj =>
          cases hwj : L.writeFile (jsonPath dir t) cj 0o644 with
          | some e =>
            simp [hs, createYAML, createJSON, hy, hwy, hj, hwj] at hfw
            exact Or.inl ⟨yamlHeader ++ cy, by simp [yamlDoc, hs, hy], by simp [hfw]⟩
          | none =>
            simp [hs, createYAML, createJSON, hy, hwy, hj, hwj] at hfw
            cases hfw with
            | inl h1 =>
              exact Or.inl ⟨yamlHeader ++ cy, by simp [yamlDoc, hs, hy], by simp [h1]⟩
            | inr h2 =>
              exact Or.inr ⟨cj, by simp [jsonDoc, hs, hj], by simp [h2]⟩

lemma runLoop_ok_iff {τ : Ty} (L : Lib τ) (dir : String) (ts : List String) :
    (runLoop L dir ts).2 = none ↔ ∀ t ∈ ts, (genOne L dir t).2 = none := by
  induction ts with
  | nil => simp [runLoop]
  | cons t ts ih =>
    cases hg : (genOne L dir t).2 with
    | some e => simp [runLoop, hg, List.forall_mem_cons]
    | none => simp [runLoop, hg, List.forall_mem_cons, ih]

lemma runLoop_cons_ok {τ : Ty} (L : Lib τ) (dir t : String) (ts : List String)
    (hg : (genOne L dir t).2 = none) :
    runLoop L dir (t :: ts) =
      ((genOne L dir t).1 ++ (runLoop L dir ts).1, (runLoop L dir ts).2) := by
  simp [runLoop, hg]

lemma runLoop_cons_err {τ : Ty} (L : Lib τ) (dir t : String) (ts : List String)
    {e : τ.Err} (hg : (genOne L dir t).2 = some e) :
    runLoop L dir (t :: ts) = ((genOne L dir t).1, some e) := by
  simp [runLoop, hg]

lemma runLoop_append_ok {τ : Ty} (L : Lib τ) (dir : String) {ts₁ : List String}
    (ts₂ : List String) (h : (runLoop L dir ts₁).2 = none) :
    runLoop L dir (ts₁ ++ ts₂) =
      ((runLoop L dir ts₁).1 ++ (runLoop L dir ts₂).1, (runLoop L dir ts₂).2) := by
  induction ts₁ with
  | nil => simp [runLoop]
  | cons t ts ih =>
    have h' := (runLoop_ok_iff L dir (t :: ts)).1 h
    have hg : (genOne L dir t).2 = none := h' t (by simp)
    have hts : (runLoop L dir ts).2 = none :=
      (runLoop_ok_iff L dir ts).2 (fun x hx => h' x (by simp [hx]))
    rw [List.cons_append, runLoop_cons_ok L dir t (ts ++ ts₂) hg, ih hts,
      runLoop_cons_ok L dir t ts hg]
    simp

lemma runLoop_writes_mem {τ : Ty} (L : Lib τ) (dir : String) {ts : List String}
    {fw : FileWrite} (hfw : fw ∈ (runLoop L dir ts).1) :
    ∃ t, t ∈ ts ∧ fw ∈ (genOne L dir t).1 := by
  induction ts with
  | nil => simp [runLoop] at hfw
  | cons t ts ih =>
    cases hg : (genOne L dir t).2 with
    | some e =>
      rw [runLoop_cons_err L dir t ts hg] at hfw
      exact ⟨t, by simp, hfw⟩
    | none =>
      rw [runLoop_cons_ok L dir t ts hg] at hfw
      rcases List.mem_append.1 hfw with h1 | h2
      · exact ⟨t, by simp, h1⟩
      · obtain ⟨t', ht', hfw'⟩ := ih h2
        exact ⟨t', by simp [ht'], hfw'⟩

lemma runLoop_ok_paths {τ : Ty} (L : Lib τ) (dir : String) {ts : List String}
    (h : (runLoop L dir ts).2 = none) :
    (runLoop L dir ts).1.map FileWrite.path = pathsFor dir ts := by
  induction ts with
  | nil => simp [runLoop, pathsFor]
  | cons t ts ih =>
    have h' := (runLoop_ok_iff L dir (t :: ts)).1 h
    have hg : (genOne L dir t).2 = none := h' t (by simp)
    have hts : (runLoop L dir ts).2 = none :=
      (runLoop_ok_iff L dir ts).2 (fun x hx => h' x (by simp [hx]))
    obtain ⟨yd, jd, _, _, hEq⟩ := genOne_ok L dir t hg
    rw [runLoop_cons_ok L dir t ts hg]
    simp [hEq, pathsFor, ih hts]

lemma mem_pathsFor {dir p : String} {ts : List String} :
    p ∈ pathsFor dir ts ↔
      ∃ t, t ∈ ts ∧ (p = yamlPath dir t ∨ p = jsonPath dir t) := by
  induction ts with
  | nil => simp [pathsFor]
  | cons t ts ih =>
    simp only [pathsFor, List.mem_cons, ih]
    constructor
    · rintro (h | h | ⟨t', ht', h⟩)
      · exact ⟨t, Or.inl rfl, Or.inl h⟩
      · exact ⟨t, Or.inl rfl, Or.inr h⟩
      · exact ⟨t', Or.inr ht', h⟩
    · rintro ⟨t', ht' | ht', h⟩
      · subst ht'; rcases h with h | h
        · exact Or.inl h
        · exact Or.inr (Or.inl h)
      · exact Or.inr (Or.inr ⟨t', ht', h⟩)

lemma pathsFor_nodup {dir : String} {ts : List String} (h : ts.Nodup) :
    (pathsFor dir ts).Nodup := by
  induction ts with
  | nil => simp [pathsFor]
  | cons t ts ih =>
    rcases List.nodup_cons.1 h with ⟨hnm, hnd⟩
    refine List.nodup_cons.2 ⟨?_, List.nodup_cons.2 ⟨?_, ih hnd⟩⟩
    · intro hmem
      rcases List.mem_cons.1 hmem with hej | hmem'
      · exact yamlPath_ne_jsonPath hej
      · rcases mem_pathsFor.1 hmem' with ⟨t', ht', hy | hj⟩
        · exact hnm (yamlPath_inj hy ▸ ht')
        · exact yamlPath_ne_jsonPath hj
    · intro hmem
      rcases mem_pathsFor.1 hmem with ⟨t', ht', hy | hj⟩
      · exact yamlPath_ne_jsonPath hy.symm
      · exact hnm (jsonPath_inj hj ▸ ht')

lemma applyWrites_eq (ws : List FileWrite) (fs : String → Option String) (p : String) :
    applyWrites fs ws p =
      match lastContent ws p with
      | some c => some c
      | none => fs p := by
  induction ws generalizing fs with
  | nil => simp [applyWrites, lastContent]
  | cons w ws ih =>
    simp only [applyWrites, lastContent]
    rw [ih]
    cases hl : lastContent ws p with
    | some c => simp
    | none =>
      by_cases hp : p = w.path <;> simp [hp]

lemma lastContent_eq_none_iff {ws : List FileWrite} {p : String} :
    lastContent ws p = none ↔ p ∉ ws.map FileWrite.path := by
  induction ws with
  | nil => simp [lastContent]
  | cons w ws ih =>
    simp only [lastContent, List.map_cons, List.mem_cons]
    cases hl : lastContent ws p with
    | some c =>
      have hmem : p ∈ ws.map FileWrite.path := by
        by_contra hn
        rw [← ih] at hn
        rw [hn] at hl
        exact Option.noConfusion hl
      simp [hmem]
    | none =>
      have hmem : p ∉ ws.map FileWrite.path := ih.1 hl
      by_cases hp : p = w.path <;> simp [hp, hmem]

lemma lastContent_append (ws₁ ws₂ : List FileWrite) (p : String) :
    lastContent (ws₁ ++ ws₂) p =
      match lastContent ws₂ p with
      | some c => some c
      | none => lastContent ws₁ p := by
  induction ws₁ with
  | nil =>
    cases h2 : lastContent ws₂ p <;> simp [lastContent, h2]
  | cons w ws ih =>
    cases h2 : lastContent ws₂ p <;>
      simp [lastContent, List.cons_append, ih, h2]

lemma lastContent_run_yaml {τ : Ty} (L : Lib τ) (dir : String) {ts : List String}
    (hok : (runLoop L dir ts).2 = none) {t : String} (ht : t ∈ ts) :
    lastContent (runLoop L dir ts).1 (yamlPath dir t) = yamlDoc L t := by
  induction ts with
  | nil => simp at ht
  | cons t' ts ih =>
    have h' := (runLoop_ok_iff L dir (t' :: ts)).1 hok
    have hg : (genOne L dir t').2 = none := h' t' (by simp)
    have hts : (runLoop L dir ts).2 = none :=
      (runLoop_ok_iff L dir ts).2 (fun x hx => h' x (by simp [hx]))
    rw [runLoop_cons_ok L dir t' ts hg]
    simp only []
    rw [lastContent_append]
    by_cases hmem : t ∈ ts
    · rw [ih hts hmem]
      obtain ⟨yd, jd, hyd, hjd, hEq⟩ := genOne_ok L dir t (h' t (by simp [hmem]))
      simp [hyd]
    · have ht'' : t = t' := by
        rcases List.mem_cons.1 ht with h | h
        · exact h
        · exact absurd h hmem
      subst ht''
      have hnone : lastContent (runLoop L dir ts).1 (yamlPath dir t) = none := by
        rw [lastContent_eq_none_iff, runLoop_ok_paths L dir hts]
        intro hmem'
        rcases mem_pathsFor.1 hmem' with ⟨t'', ht'', hy | hj⟩
        · exact hmem (yamlPath_inj hy ▸ ht'')
        · exact yamlPath_ne_jsonPath hj
      rw [hnone]
      obtain ⟨yd, jd, hyd, hjd, hEq⟩ := genOne_ok L dir t hg
      rw [hEq]
      have hne : yamlPath dir t ≠ jsonPath dir t := yamlPath_ne_jsonPath
      simp [lastContent, hne, hyd]

lemma lastContent_run_json {τ : Ty} (L : Lib τ) (dir : String) {ts : List String}
    (hok : (runLoop L dir ts).2 = none) {t : String} (ht : t ∈ ts) :
    lastContent (runLoop L dir ts).1 (jsonPath dir t) = jsonDoc L t := by
  induction ts with
  | nil => simp at ht
  | cons t' ts ih =>
    have h' := (runLoop_ok_iff L dir (t' :: ts)).1 hok
    have hg : (genOne L dir t').2 = none := h' t' (by simp)
    have hts : (runLoop L dir ts).2 = none :=
      (runLoop_ok_iff L dir ts).2 (fun x hx => h' x (by simp [hx]))
    rw [runLoop_cons_ok L dir t' ts hg]
    simp only []
    rw [lastContent_append]
    by_cases hmem : t ∈ ts
    · rw [ih hts hmem]
      obtain ⟨yd, jd, hyd, hjd, hEq⟩ := genOne_ok L dir t (h' t (by simp [hmem]))
      simp [hjd]
    · have ht'' : t = t' := by
        rcases List.mem_cons.1 ht with h | h
        · exact h
        · exact absurd h hmem
      subst ht''
      have hnone : lastContent (runLoop L dir ts).1 (jsonPath dir t) = none := by
        rw [lastContent_eq_none_iff, runLoop_ok_paths L dir hts]
        intro hmem'
        rcases mem_pathsFor.1 hmem' with ⟨t'', ht'', hy | hj⟩
        · exact yamlPath_ne_jsonPath hy.symm
        · exact hmem (jsonPath_inj hj ▸ ht'')
      rw [hnone]
      obtain ⟨yd, jd, hyd, hjd, hEq⟩ := genOne_ok L dir t hg
      rw [hEq]
      simp [lastContent, hjd]

lemma lastContent_run_other {τ : Ty} (L : Lib τ) (dir : String) {ts : List String}
    (hok : (runLoop L dir ts).2 = none) {p : String}
    (hp : ∀ t ∈ ts, p ≠ yamlPath dir t ∧ p ≠ jsonPath dir t) :
    lastContent (runLoop L dir ts).1 p = none := by
  rw [lastContent_eq_none_iff, runLoop_ok_paths L dir hok]
  intro hmem
  rcases mem_pathsFor.1 hmem with ⟨t, ht, hy | hj⟩
  · exact (hp t ht).1 hy
  · exact (hp t ht).2 hj

lemma buildConfig_fields {τ : Ty} (L : Lib τ) (t : String) :
    (buildConfig L t).http = L.httpDefault ∧
    (buildConfig L t).buffer = L.bufferDefault ∧
    (buildConfig L t).input.rest = L.inputDefault.rest ∧
    (buildConfig L t).output.rest = L.outputDefault.rest ∧
    (buildConfig L t).pipeline.rest = L.pipelineDefault.rest ∧
    (buildConfig L t).input.processors = [] ∧
    (buildConfig L t).output.processors = [] ∧
    (buildConfig L t).pipeline.processors =
      L.pipelineDefault.processors ++ [L.procDefault] ∧
    (buildConfig L t).input.type =
      (if t ∈ L.inputConstructors then t else L.inputDefault.type) ∧
    (buildConfig L t).output.type =
      (if t ∈ L.outputConstructors then t else L.outputDefault.type) := by
  by_cases h1 : t ∈ L.inputConstructors <;> by_cases h2 : t ∈ L.outputConstructors <;>
    simp [buildConfig, NewConfig, h1, h2]

/-- C10: for every connector type name processed, the http and buffer
sections of the configuration passed to sanitisation are exactly the
library defaults, and so is every field other than the input and output
processor lists, the pipeline processor list, and the input and output
type fields. -/
theorem C10_frame {τ : Ty} (L : Lib τ) (t : String) :
    (buildConfig L t).http = L.httpDefault ∧
    (buildConfig L t).buffer = L.bufferDefault ∧
    (buildConfig L t).input.rest = L.inputDefault.rest ∧
    (buildConfig L t).output.rest = L.outputDefault.rest ∧
    (buildConfig L t).pipeline.rest = L.pipelineDefault.rest := by
  obtain ⟨h1, h2, h3, h4, h5, _⟩ := buildConfig_fields L t
  exact ⟨h1, h2, h3, h4, h5⟩

/-- C4: for every connector type name processed, the configuration handed
to sanitisation has empty input and output processor lists and exactly the
one default processor configuration in the pipeline processor list
(given that the library's default pipeline configuration carries an empty
processor list, as the real engine library's does: the code appends one
entry to that default list). -/
theorem C4_processors {τ : Ty} (L : Lib τ) (t : String)
    (hp : L.pipelineDefault.processors = []) :
    (buildConfig L t).input.processors = [] ∧
    (buildConfig L t).output.processors = [] ∧
    (buildConfig L t).pipeline.processors = [L.procDefault] := by
  obtain ⟨_, _, _, _, _, hip, hop, hpp, _, _⟩ := buildConfig_fields L t
  refine ⟨hip, hop, ?_⟩
  rw [hpp, hp]
  simp

/-- C4 witness: evaluated on the concrete library `libA`. -/
theorem C4_processors_witness :
    (buildConfig libA "a").pipeline.processors = [libA.procDefault] :=
  (C4_processors libA "a" rfl).2.2

/-- C3: the input section's type is the processed name exactly when that
name is a key of the input registry and otherwise keeps the library
default, and symmetrically for the output section; a name in both
registries sets both types.  The two iff forms use that the library's
default input and output types are themselves registered (true of the real
engine library). -/
theorem C3_types {τ : Ty} (L : Lib τ) (t : String)
    (hin : L.inputDefault.type ∈ L.inputConstructors)
    (hout : L.outputDefault.type ∈ L.outputConstructors) :
    ((buildConfig L t).input.type = t ↔ t ∈ L.inputConstructors) ∧
    (t ∉ L.inputConstructors →
      (buildConfig L t).input.type = L.inputDefault.type) ∧
    ((buildConfig L t).output.type = t ↔ t ∈ L.outputConstructors) ∧
    (t ∉ L.outputConstructors →
      (buildConfig L t).output.type = L.outputDefault.type) ∧
    (t ∈ L.inputConstructors → t ∈ L.outputConstructors →
      (buildConfig L t).input.type = t ∧ (buildConfig L t).output.type = t) := by
  obtain ⟨_, _, _, _, _, _, _, _, hit, hot⟩ := buildConfig_fields L t
  refine ⟨?_, ?_, ?_, ?_, ?_⟩
  · rw [hit]
    by_cases h1 : t ∈ L.inputConstructors
    · simp [h1]
    · simp [h1]
      intro heq
      exact h1 (heq ▸ hin)
  · intro h1
    rw [hit]
    simp [h1]
  · rw [hot]
    by_cases h2 : t ∈ L.outputConstructors
    · simp [h2]
    · simp [h2]
      intro heq
      exact h2 (heq ▸ hout)
  · intro h2
    rw [hot]
    simp [h2]
  · intro h1 h2
    rw [hit, hot]
    simp [h1, h2]

/-- C3 witness: on `libA`, the name `a` is input-only, so the input type is
set to `a`. -/
theorem C3_types_witness : (buildConfig libA "a").input.type = "a" :=
  ((C3_types libA "a" (by decide) (by decide)).1).2 (by decide)

/-- C5: `Config.Sanitised` copies `http` verbatim and fills the other four
fields from the four external sanitisation calls; the first failing call's
error is returned, and — expressed by quantifying over a second library
that agrees on the calls made so far — the remaining calls are never
invoked and no partial result is returned. -/
theorem C5_sanitised {τ : Ty} (L L' : Lib τ) (c : Config τ) :
    (∀ r, Config.Sanitised L c = .ok r →
      r.http = c.http ∧ L.sanitiseInput c.input = .ok r.input ∧
      L.sanitiseBuffer c.buffer = .ok r.buffer ∧
      L.sanitisePipeline c.pipeline = .ok r.pipeline ∧
      L.sanitiseOutput c.output = .ok r.output) ∧
    (∀ e, L'.sanitiseInput = L.sanitiseInput →
      L.sanitiseInput c.input = .error e → Config.Sanitised L' c = .error e) ∧
    (∀ i e, L'.sanitiseInput = L.sanitiseInput →
      L'.sanitiseBuffer = L.sanitiseBuffer →
      L.sanitiseInput c.input = .ok i → L.sanitiseBuffer c.buffer = .error e →
      Config.Sanitised L' c = .error e) ∧
    (∀ i b e, L'.sanitiseInput = L.sanitiseInput →
      L'.sanitiseBuffer = L.sanitiseBuffer →
      L'.sanitisePipeline = L.sanitisePipeline →
      L.sanitiseInput c.input = .ok i → L.sanitiseBuffer c.buffer = .ok b →
      L.sanitisePipeline c.pipeline = .error e →
      Config.Sanitised L' c = .error e) ∧
    (∀ i b pl e, L'.sanitiseInput = L.sanitiseInput →
      L'.sanitiseBuffer = L.sanitiseBuffer →
      L'.sanitisePipeline = L.sanitisePipeline →
      L'.sanitiseOutput = L.sanitiseOutput →
      L.sanitiseInput c.input = .ok i → L.sanitiseBuffer c.buffer = .ok b →
      L.sanitisePipeline c.pipeline = .ok pl →
      L.sanitiseOutput c.output = .error e →
      Config.Sanitised L' c = .error e) := by
  refine ⟨?_, ?_, ?_, ?_, ?_⟩
  · intro r hr
    unfold Config.Sanitised at hr
    cases hi : L.sanitiseInput c.input with
    | error e => simp [hi] at hr
    | ok iv =>
      cases hb : L.sanitiseBuffer c.buffer with
      | error e => simp [hi, hb] at hr
      | ok bv =>
        cases hpl : L.sanitisePipeline c.pipeline with
        | error e => simp [hi, hb, hpl] at hr
        | ok pv =>
          cases ho : L.sanitiseOutput c.output with
          | error e => simp [hi, hb, hpl, ho] at hr
          | ok ov =>
            simp only [hi, hb, hpl, ho, Except.ok.injEq] at hr
            subst hr
            exact ⟨rfl, rfl, rfl, rfl, rfl⟩
  · intro e ha hi
    simp [Config.Sanitised, ha, hi]
  · intro i e ha hb' hi hb
    simp [Config.Sanitised, ha, hb', hi, hb]
  · intro i b e ha hb' hp' hi hb hpl
    simp [Config.Sanitised, ha, hb', hp', hi, hb, hpl]
  · intro i b pl e ha hb' hp' ho' hi hb hpl ho
    simp [Config.Sanitised, ha, hb', hp', ho', hi, hb, hpl, ho]

/-- C5 witness: the input sanitisation of `libF` fails with error 7, so
`Config.Sanitised` fails with 7 even for `libF2`, whose buffer sanitisation
would fail with 9 — it is never invoked. -/
theorem C5_sanitised_witness :
    Config.Sanitised libF2 (NewConfig libA) = .error 7 :=
  (C5_sanitised libF libF2 (NewConfig libA)).2.1 7 rfl rfl

/-- C1: when every name before `t` is processed without error, any error
while processing `t` (sanitisation, marshalling, or file writing, i.e. any
`genOne` failure) aborts the run at once with that error and with no
subsequent name processed; and when specifically `t`'s sanitisation fails,
additionally no file at all is written for `t`. -/
theorem C1_fail_fast {τ : Ty} (L : Lib τ) (dir : String) (ts₁ ts₂ : List String)
    (t : String) (e : τ.Err) (hpre : (runLoop L dir ts₁).2 = none) :
    ((genOne L dir t).2 = some e →
      runLoop L dir (ts₁ ++ t :: ts₂) =
        ((runLoop L dir ts₁).1 ++ (genOne L dir t).1, some e)) ∧
    (Config.Sanitised L (buildConfig L t) = .error e →
      runLoop L dir (ts₁ ++ t :: ts₂) = ((runLoop L dir ts₁).1, some e)) := by
  constructor
  · intro hg
    rw [runLoop_append_ok L dir (t :: ts₂) hpre, runLoop_cons_err L dir t ts₂ hg]
  · intro hs
    have hg : genOne L dir t = ([], some e) := genOne_sanit_err L dir t hs
    rw [runLoop_append_ok L dir (t :: ts₂) hpre,
      runLoop_cons_err L dir t ts₂ (by rw [hg])]
    rw [hg]
    simp

/-- C1 witness: with `libF`, whose input sanitisation fails with 7,
processing `a` aborts before writing anything and before reaching `b`. -/
theorem C1_fail_fast_witness :
    runLoop libF "d" ([] ++ "a" :: ["b"]) = ((runLoop libF "d" []).1, some 7) :=
  (C1_fail_fast libF "d" [] ["b"] "a" 7 rfl).2 rfl

/-- C2: a run without errors over a deduplicated enumeration of the union
of the two registries writes exactly the files `<dir>/<t>.yaml` and
`<dir>/<t>.json`, one pair per name, each path once; starting from an empty
directory, exactly those paths exist afterwards. -/
theorem C2_files_produced {τ : Ty} (L : Lib τ) (dir : String) (ts : List String)
    (hnd : ts.Nodup)
    (hmem : ∀ t, t ∈ ts ↔ (t ∈ L.inputConstructors ∨ t ∈ L.outputConstructors))
    (hok : (runLoop L dir ts).2 = none) :
    (runLoop L dir ts).1.map FileWrite.path = pathsFor dir ts ∧
    (pathsFor dir ts).Nodup ∧
    (∀ t, (t ∈ L.inputConstructors ∨ t ∈ L.outputConstructors) →
      yamlPath dir t ∈ pathsFor dir ts ∧ jsonPath dir t ∈ pathsFor dir ts) ∧
    (∀ p, (applyWrites (fun _ => none) (runLoop L dir ts).1 p).isSome ↔
      ∃ t, (t ∈ L.inputConstructors ∨ t ∈ L.outputConstructors) ∧
        (p = yamlPath dir t ∨ p = jsonPath dir t)) := by
  refine ⟨runLoop_ok_paths L dir hok, pathsFor_nodup hnd, ?_, ?_⟩
  · intro t htm
    have ht : t ∈ ts := (hmem t).2 htm
    exact ⟨mem_pathsFor.2 ⟨t, ht, Or.inl rfl⟩, mem_pathsFor.2 ⟨t, ht, Or.inr rfl⟩⟩
  · intro p
    rw [applyWrites_eq]
    cases hl : lastContent (runLoop L dir ts).1 p with
    | some c =>
      simp only [Option.isSome_some, true_iff]
      have hmem' : p ∈ (runLoop L dir ts).1.map FileWrite.path := by
        by_contra hn
        rw [← lastContent_eq_none_iff] at hn
        rw [hn] at hl
        exact Option.noConfusion hl
      rw [runLoop_ok_paths L dir hok] at hmem'
      rcases mem_pathsFor.1 hmem' with ⟨t, ht, hp⟩
      exact ⟨t, (hmem t).1 ht, hp⟩
    | none =>
      simp only [Option.isSome_none, Bool.false_eq_true, false_iff]
      rintro ⟨t, htm, hp⟩
      have ht : t ∈ ts := (hmem t).2 htm
      have hin : p ∈ (runLoop L dir ts).1.map FileWrite.path := by
        rw [runLoop_ok_paths L dir hok]
        exact mem_pathsFor.2 ⟨t, ht, hp⟩
      exact (lastContent_eq_none_iff.1 hl) hin

/-- C2 witness: `libA` registers `a` (input) and `b` (output); the run over
`[a, b]` writes exactly the four expected paths. -/
theorem C2_files_produced_witness :
    (runLoop libA "d" ["a", "b"]).1.map FileWrite.path = pathsFor "d" ["a", "b"] :=
  (C2_files_produced libA "d" ["a", "b"] (by decide)
    (fun t => by simp [libA]) rfl).1

/-- C6: every write of a run whose path is the YAML path of some name `t`
has as content exactly the fixed header line followed by the YAML
serialization of the sanitised configuration for `t`. -/
theorem C6_yaml_content {τ : Ty} (L : Lib τ) (dir : String) (ts : List String)
    {fw : FileWrite} (hfw : fw ∈ (runLoop L dir ts).1) (t : String)
    (hpath : fw.path = yamlPath dir t) :
    ∃ s cy, Config.Sanitised L (buildConfig L t) = .ok s ∧
      L.yamlMarshal s = .ok cy ∧ fw.content = yamlHeader ++ cy := by
  obtain ⟨t', _, hfw'⟩ := runLoop_writes_mem L dir hfw
  rcases genOne_writes_shape L dir t' hfw' with ⟨yd, hyd, hEq⟩ | ⟨jd, _, hEq⟩
  · have hpq : yamlPath dir t' = yamlPath dir t := by
      rw [← hpath, hEq]
    have ht : t' = t := yamlPath_inj hpq
    subst ht
    rcases (yamlDoc_some_iff L t' yd).1 hyd with ⟨s, cy, hs, hy, hydEq⟩
    exact ⟨s, cy, hs, hy, by simp [hEq, hydEq]⟩
  · exfalso
    have : yamlPath dir t = jsonPath dir t' := by
      rw [← hpath, hEq]
    exact yamlPath_ne_jsonPath this

/-- C6 witness: the YAML file written for `a` by `libA` starts with the
header and continues with the marshalled text `Y`. -/
theorem C6_yaml_content_witness :
    ∃ s cy, Config.Sanitised libA (buildConfig libA "a") = .ok s ∧
      libA.yamlMarshal s = .ok cy ∧
      (FileWrite.mk (yamlPath "d" "a") (yamlHeader ++ "Y") 0o644).content
        = yamlHeader ++ cy :=
  @C6_yaml_content tyU libA "d" ["a"]
    ⟨yamlPath "d" "a", yamlHeader ++ "Y", 0o644⟩ (by decide) "a" rfl

/-- C7: every write of a run whose path is the JSON path of some name `t`
has as content exactly the JSON serialization of the sanitised
configuration for `t`, produced with empty prefix and tab indentation, and
no header precedes it. -/
theorem C7_json_content {τ : Ty} (L : Lib τ) (dir : String) (ts : List String)
    {fw : FileWrite} (hfw : fw ∈ (runLoop L dir ts).1) (t : String)
    (hpath : fw.path = jsonPath dir t) :
    ∃ s cj, Config.Sanitised L (buildConfig L t) = .ok s ∧
      L.jsonMarshalIndent "" "\t" s = .ok cj ∧ fw.content = cj := by
  obtain ⟨t', _, hfw'⟩ := runLoop_writes_mem L dir hfw
  rcases genOne_writes_shape L dir t' hfw' with ⟨yd, _, hEq⟩ | ⟨jd, hjd, hEq⟩
  · exfalso
    have : yamlPath dir t' = jsonPath dir t := by
      rw [← hpath, hEq]
    exact yamlPath_ne_jsonPath this
  · have hpq : jsonPath dir t' = jsonPath dir t := by
      rw [← hpath, hEq]
    have ht : t' = t := jsonPath_inj hpq
    subst ht
    rcases (jsonDoc_some_iff L t' jd).1 hjd with ⟨s, cj, hs, hj, hjdEq⟩
    exact ⟨s, cj, hs, hj, by simp [hEq, hjdEq]⟩

/-- C7 witness: the JSON file written for `a` by `libA` is exactly the
marshalled text `J`, with no header. -/
theorem C7_json_content_witness :
    ∃ s cj, Config.Sanitised libA (buildConfig libA "a") = .ok s ∧
      libA.jsonMarshalIndent "" "\t" s = .ok cj ∧
      (FileWrite.mk (jsonPath "d" "a") "J" 0o644).content = cj :=
  @C7_json_content tyU libA "d" ["a"]
    ⟨jsonPath "d" "a", "J", 0o644⟩ (by decide) "a" rfl

/-- C8: with unchanged registries, defaults and sanitisation (one fixed
`Lib`), the final directory content of an error-free run is the same for
any two enumerations of the type-name set (order independence), and
applying the same run's writes a second time leaves the directory
unchanged (byte-for-byte idempotent overwrite). -/
theorem C8_deterministic {τ : Ty} (L : Lib τ) (dir : String)
    (ts₁ ts₂ : List String) (hmem : ∀ t, t ∈ ts₁ ↔ t ∈ ts₂)
    (hok : (runLoop L dir ts₁).2 = none) :
    (∀ fs₀, applyWrites fs₀ (runLoop L dir ts₁).1 =
      applyWrites fs₀ (runLoop L dir ts₂).1) ∧
    (∀ fs₀, applyWrites (applyWrites fs₀ (runLoop L dir ts₁).1)
        (runLoop L dir ts₁).1 =
      applyWrites fs₀ (runLoop L dir ts₁).1) := by
  have hok₂ : (runLoop L dir ts₂).2 = none :=
    (runLoop_ok_iff L dir ts₂).2 fun t ht =>
      ((runLoop_ok_iff L dir ts₁).1 hok) t ((hmem t).2 ht)
  constructor
  · intro fs₀
    funext p
    rw [applyWrites_eq, applyWrites_eq]
    by_cases hp : ∃ t, t ∈ ts₁ ∧ (p = yamlPath dir t ∨ p = jsonPath dir t)
    · obtain ⟨t, ht, hcase⟩ := hp
      have ht₂ : t ∈ ts₂ := (hmem t).1 ht
      rcases hcase with h | h <;> subst h
      · rw [lastContent_run_yaml L dir hok ht, lastContent_run_yaml L dir hok₂ ht₂]
      · rw [lastContent_run_json L dir hok ht, lastContent_run_json L dir hok₂ ht₂]
    · have hp' : ∀ t ∈ ts₁, p ≠ yamlPath dir t ∧ p ≠ jsonPath dir t := by
        intro t ht
        constructor
        · intro h; exact hp ⟨t, ht, Or.inl h⟩
        · intro h; exact hp ⟨t, ht, Or.inr h⟩
      have hp₂ : ∀ t ∈ ts₂, p ≠ yamlPath dir t ∧ p ≠ jsonPath dir t := by
        intro t ht
        exact hp' t ((hmem t).2 ht)
      rw [lastContent_run_other L dir hok hp', lastContent_run_other L dir hok₂ hp₂]
  · intro fs₀
    funext p
    rw [applyWrites_eq, applyWrites_eq]
    cases hl : lastContent (runLoop L dir ts₁).1 p <;> simp

/-- C8 witness: the two iteration orders of `libA`'s two names produce the
same final directory from an empty one. -/
theorem C8_deterministic_witness :
    applyWrites (fun _ => none) (runLoop libA "d" ["a", "b"]).1 =
      applyWrites (fun _ => none) (runLoop libA "d" ["b", "a"]).1 :=
  (C8_deterministic libA "d" ["a", "b"] ["b", "a"]
    (fun t => by simp [or_comm]) rfl).1 (fun _ => none)

/-- C9: every file write of a run uses permission bits 0644 (420), and at
every path the run writes, the final content does not depend on what was
previously on disk there — the write is an unconditional overwrite. -/
theorem C9_perm_overwrite {τ : Ty} (L : Lib τ) (dir : String) (ts : List String) :
    (∀ fw ∈ (runLoop L dir ts).1, fw.perm = 0o644) ∧
    (∀ p, (∃ fw ∈ (runLoop L dir ts).1, fw.path = p) →
      ∀ fs₀ fs₀', applyWrites fs₀ (runLoop L dir ts).1 p =
        applyWrites fs₀' (runLoop L dir ts).1 p) := by
  constructor
  · intro fw hfw
    obtain ⟨t, _, hfw'⟩ := runLoop_writes_mem L dir hfw
    rcases genOne_writes_shape L dir t hfw' with ⟨yd, _, hEq⟩ | ⟨jd, _, hEq⟩ <;>
      simp [hEq]
  · intro p hp fs₀ fs₀'
    rw [applyWrites_eq, applyWrites_eq]
    obtain ⟨fw, hfw, hpath⟩ := hp
    have hin : p ∈ (runLoop L dir ts).1.map FileWrite.path :=
      List.mem_map.2 ⟨fw, hfw, hpath⟩
    cases hl : lastContent (runLoop L dir ts).1 p with
    | some c => simp
    | none => exact absurd hin (lastContent_eq_none_iff.1 hl)

/-- C9 witness: the content at the YAML path of `a` after a run of `libA`
is the same whether the directory started empty or with a file there. -/
theorem C9_perm_overwrite_witness :
    applyWrites (fun _ => none) (runLoop libA "d" ["a"]).1 (yamlPath "d" "a") =
      applyWrites (fun _ => some "old") (runLoop libA "d" ["a"]).1
        (yamlPath "d" "a") :=
  (C9_perm_overwrite libA "d" ["a"]).2 (yamlPath "d" "a")
    ⟨⟨yamlPath "d" "a", yamlHeader ++ "Y", 0o644⟩, by decide, rfl⟩
    (fun _ => none) (fun _ => some "old")
